import Mathlib

/-!
Verification of the spaced-repetition review-state store and scheduler of
the vscode-pdfviewer (lattice) extension.

The store is embedded from `src/SRS/cardReviewState.ts` (the later revision
of that file, which skips invalid entries on load and stamps
`lastReviewDate` on update).  The JavaScript `Map<string, StoredCardState>`
is embedded as an association list with the exact JS `Map.set`/`Map.get`
semantics (first binding wins, `set` replaces in place, new keys append).
Timestamps are integers (milliseconds); a JavaScript `Date` is either a
valid instant or the Invalid Date produced by parsing garbage, whose
comparisons are all false (NaN semantics).
-/

namespace SRS

/-- A JavaScript `Date` value: a valid timestamp in milliseconds, or the
Invalid Date that `new Date(badString)` yields. -/
inductive JSDate where
  | valid (ms : Int)
  | invalid
deriving DecidableEq

/-- `d <= now` as JavaScript evaluates it on a `Date` (comparison with an
Invalid Date is `false`, since its time value is NaN). -/
def JSDate.le (d : JSDate) (now : Int) : Bool :=
  match d with
  | .valid ms => decide (ms ≤ now)
  | .invalid => false

/-- The `ts-fsrs` `Card` record as persisted by the extension (field list
from the persisted-state layout used by `cardReviewState.ts`). -/
structure FSRSCard where
  due : JSDate
  stability : ℚ
  difficulty : ℚ
  elapsed_days : ℚ
  scheduled_days : ℚ
  reps : Nat
  lapses : Nat
  state : Nat
  last_review : Option JSDate := none
deriving DecidableEq

/-- Modelled from the spec: `createEmptyCard(now)` comes from the external
`ts-fsrs` dependency, whose source is not part of this repository.  The
spec fixes what matters here: a brand-new card has default memory state
with `dueAt = now` (immediately due) and is in the New phase. -/
def createEmptyCard (now : Int) : FSRSCard :=
  { due := .valid now, stability := 0, difficulty := 0, elapsed_days := 0,
    scheduled_days := 0, reps := 0, lapses := 0, state := 0,
    last_review := none }

/-- `StoredCardState` from `cardReviewState.ts`.  The optional JS fields
`lastReviewDate` and `deleted` become an `Option` and a `Bool`
(JS reads them only through truthiness, so a missing `deleted` field and
`deleted=false` are indistinguishable to every store operation).
`lastReviewDate` is stored as the instant the ISO string denotes. -/
structure StoredCardState where
  cardId : String
  fsrsCard : FSRSCard
  lastReviewDate : Option Int := none
  deleted : Bool := false
deriving DecidableEq

/-- The in-memory `Map<string, StoredCardState>` of the store. -/
abbrev StoreMap : Type := List (String × StoredCardState)

/-- `Map.get`: the value bound to `k`, if any (first binding wins). -/
def mapGet : StoreMap → String → Option StoredCardState
  | [], _ => none
  | p :: rest, k => if p.1 = k then some p.2 else mapGet rest k

/-- `Map.set`: replaces the existing binding of `k` in place, or appends a
new binding at the end, exactly as a JavaScript `Map` does. -/
def mapSet : StoreMap → String → StoredCardState → StoreMap
  | [], k, v => [(k, v)]
  | p :: rest, k, v => if p.1 = k then (k, v) :: rest else p :: mapSet rest k v

/-- `Map.has`. -/
def containsKey : StoreMap → String → Bool
  | [], _ => false
  | p :: rest, k => (p.1 = k) || containsKey rest k

/-- A JavaScript `Map` never holds two bindings of the same key; the
embedding states that invariant explicitly. -/
def keysNodup (m : StoreMap) : Prop :=
  (List.map Prod.fst m).Nodup

instance (m : StoreMap) : Decidable (keysNodup m) :=
  List.nodupDecidable _

/-- The `MdCard` interface from `card.ts`; only the fields the store reads
(`id`, which is optional in the source) plus the card content fields. -/
structure MdCard where
  id : Option String := none
  front : String := ""
  back : String := ""
  tags : List String := []
deriving DecidableEq

/-- `CardReviewState.getDueCards(now)`: ids of entries that are not soft-
deleted and whose `fsrsCard.due <= now`. -/
def getDueCards (m : StoreMap) (now : Int) : List String :=
  ((m : List (String × StoredCardState)).filter
      (fun p => !p.2.deleted && p.2.fsrsCard.due.le now)).map (fun p => p.1)

/-- `CardReviewState.getOrCreateState(card)`.  Throwing is embedded as
`Except.error`; `now` is the clock read for `createEmptyCard`. -/
def getOrCreateState (m : StoreMap) (card : MdCard) (now : Int) :
    Except String (FSRSCard × StoreMap) :=
  match card.id with
  | none => .error "Card must have an ID"
  | some id =>
    if id = "" then .error "Card must have an ID"
    else
      match mapGet m id with
      | some existing =>
        if existing.deleted then
          .ok (existing.fsrsCard, mapSet m id { existing with deleted := false })
        else
          .ok (existing.fsrsCard, m)
      | none =>
        let c := createEmptyCard now
        .ok (c, mapSet m id { cardId := id, fsrsCard := c })

/-- `CardReviewState.updateState(cardId, newState)`: overwrites the stored
card and stamps `lastReviewDate` with the current instant; no-op when the
id is unknown. -/
def updateState (m : StoreMap) (cardId : String) (newState : FSRSCard)
    (now : Int) : StoreMap :=
  match mapGet m cardId with
  | some existing =>
      mapSet m cardId
        { existing with fsrsCard := newState, lastReviewDate := some now }
  | none => m

/-- `CardReviewState.markCardAsDeleted(cardId)`: sets the soft-delete flag;
no-op when the id is unknown. -/
def markCardAsDeleted (m : StoreMap) (cardId : String) : StoreMap :=
  match mapGet m cardId with
  | some st => mapSet m cardId { st with deleted := true }
  | none => m

/-- `CardReviewState.isCardDeleted(cardId)`. -/
def isCardDeleted (m : StoreMap) (cardId : String) : Bool :=
  match mapGet m cardId with
  | some st => st.deleted
  | none => false

/-- One entry of the persisted JSON array, after `JSON.parse` and the
`new Date(...)` reconstructions of `loadState` (which never throw: an
unparseable date string becomes `JSDate.invalid`).  `cardId` and
`fsrsCard` may be missing. -/
structure RawEntry where
  cardId : Option String := none
  fsrsCard : Option FSRSCard := none
  lastReviewDate : Option Int := none
  deleted : Bool := false
deriving DecidableEq

/-- The loop body of `loadState`: `if (!state.cardId) continue;` then
`if (fsrsCard) { ...; this.states.set(state.cardId, state); }`. -/
def loadEntry (m : StoreMap) (e : RawEntry) : StoreMap :=
  match e.cardId with
  | none => m
  | some cid =>
    if cid = "" then m
    else
      match e.fsrsCard with
      | none => m
      | some c =>
          mapSet m cid
            { cardId := cid, fsrsCard := c,
              lastReviewDate := e.lastReviewDate, deleted := e.deleted }

/-- `loadState` over an already-parsed JSON array: fold the loop body over
the entries, starting from the empty map. -/
def loadEntries (entries : List RawEntry) : StoreMap :=
  entries.foldl loadEntry ∅

/-- An entry `loadState` actually keeps: truthy `cardId` and present
`fsrsCard`. -/
def RawEntry.wellFormed (e : RawEntry) : Bool :=
  (match e.cardId with
   | some cid => if cid = "" then false else true
   | none => false) && e.fsrsCard.isSome

/-- The record created for a previously unseen card id
(`{ cardId: card.id, fsrsCard: newFsrsCard }` in `getOrCreateState`). -/
def newCardRecord (id : String) (now : Int) : StoredCardState :=
  { cardId := id, fsrsCard := createEmptyCard now }

/-! ### The scheduler

The rating → reschedule transition is performed by `fsrs.repeat` of the
external `ts-fsrs` package (used in `cardReviewView.ts`), whose source is
not part of this repository; the definitions below are therefore modelled
from the spec's description of the algorithm (§4.1): retrievability decays
as `R = (1 + elapsed/(9*stability))^-1`, each rating produces a new
difficulty (clamped) and stability (grown for successful ratings, shrunk
for Again, which also increments the lapse count and moves the card to
Relearning), and the interval is the inverse of the decay curve at the
configured target retention, clamped to configured bounds.  Exact numeric
weights are configuration, per the spec.  Arithmetic is over `ℚ`
(timestamps in days). -/

/-- Coarse memory phase of a card (spec §3). -/
inductive Phase where
  | New
  | Learning
  | Review
  | Relearning
deriving DecidableEq

/-- The four review ratings. -/
inductive Rating where
  | Again
  | Hard
  | Good
  | Easy
deriving DecidableEq

/-- Modelled from the spec: the scheduler's per-card memory state (§3). -/
structure MemoryState where
  dueAt : ℚ
  stability : ℚ
  difficulty : ℚ
  reviewCount : Nat
  lapseCount : Nat
  lastReviewedAt : Option ℚ
  phase : Phase
deriving DecidableEq

/-- One of the four candidate outcomes of a scheduling request. -/
structure Outcome where
  nextState : MemoryState
  intervalDays : ℚ
deriving DecidableEq

/-- Modelled from the spec: the scheduler's configuration (target
retention, interval bounds, rating weights, learning steps) is supplied as
input, not global state (§4.1). -/
structure SchedulerConfig where
  requestRetention : ℚ
  maximumInterval : ℚ
  growthWeight : ℚ
  hardPenalty : ℚ
  easyBonus : ℚ
  difficultyStep : ℚ
  stepAgain : ℚ
  stepHard : ℚ
  stepGood : ℚ
  stepEasy : ℚ
  forgetFactor : ℚ
deriving DecidableEq

/-- Days elapsed since the last review; clock skew is tolerated by treating
negative elapsed time as zero (spec §4.1 input constraints). -/
def elapsedDays (s : MemoryState) (now : ℚ) : ℚ :=
  match s.lastReviewedAt with
  | none => 0
  | some t => max 0 (now - t)

/-- Modelled from the spec: retrievability
`R = (1 + elapsed/(9*stability))^-1 = 9*stability / (9*stability + elapsed)`. -/
def retrievability (stability elapsed : ℚ) : ℚ :=
  9 * stability / (9 * stability + elapsed)

/-- Modelled from the spec: intervalDays is the inverse of the decay curve
at the target retention, clamped to the configured bounds
(1 day .. `maximumInterval`). -/
def nextIntervalDays (cfg : SchedulerConfig) (stab : ℚ) : ℚ :=
  min cfg.maximumInterval (max 1 (9 * stab * (1 / cfg.requestRetention - 1)))

/-- Modelled from the spec: ratings below Good increase difficulty, Easy
decreases it, clamped to the configured range (here [1, 10]). -/
def nextDifficulty (cfg : SchedulerConfig) (d : ℚ) (r : Rating) : ℚ :=
  max 1 (min 10
    (d + cfg.difficultyStep *
      (match r with | .Again => 2 | .Hard => 1 | .Good => 0 | .Easy => -1)))

/-- Modelled from the spec: stability growth for a successful review is a
function of retrievability, difficulty and the rating weight (the more the
card was forgotten and the easier it is, the larger the growth). -/
def growthFactor (cfg : SchedulerConfig) (s : MemoryState) (elapsed : ℚ) : ℚ :=
  cfg.growthWeight * (11 - s.difficulty) * (1 - retrievability s.stability elapsed)

/-- Modelled from the spec: the next stability of a Review-phase card.
Hard and Easy scale the growth term by their configured weights; Again
shrinks stability. -/
def reviewStability (cfg : SchedulerConfig) (s : MemoryState) (elapsed : ℚ) :
    Rating → ℚ
  | .Again => s.stability * cfg.forgetFactor
  | .Hard => s.stability * (1 + growthFactor cfg s elapsed * cfg.hardPenalty)
  | .Good => s.stability * (1 + growthFactor cfg s elapsed)
  | .Easy => s.stability * (1 + growthFactor cfg s elapsed * cfg.easyBonus)

/-- The fixed learning-step interval for a rating (spec §4.1 step 5). -/
def learningStep (cfg : SchedulerConfig) : Rating → ℚ
  | .Again => cfg.stepAgain
  | .Hard => cfg.stepHard
  | .Good => cfg.stepGood
  | .Easy => cfg.stepEasy

/-- Modelled from the spec: the next state after a successful review-phase
rating (Hard, Good or Easy): stability grows, difficulty is adjusted, the
interval is the clamped inverse decay at the new stability. -/
def reviewSuccess (cfg : SchedulerConfig) (s : MemoryState) (r : Rating)
    (now : ℚ) : Outcome :=
  let stab := reviewStability cfg s (elapsedDays s now) r
  let ivl := nextIntervalDays cfg stab
  { nextState :=
      { s with dueAt := now + ivl,
               stability := stab,
               difficulty := nextDifficulty cfg s.difficulty r,
               reviewCount := s.reviewCount + 1,
               lastReviewedAt := some now,
               phase := .Review },
    intervalDays := ivl }

/-- Modelled from the spec: the outcome for a Review-phase card.  Again is
a lapse: stability shrinks, the lapse count increments, the card moves to
Relearning with a short relearning step. -/
def reviewOutcome (cfg : SchedulerConfig) (s : MemoryState) (r : Rating)
    (now : ℚ) : Outcome :=
  match r with
  | .Again =>
    { nextState :=
        { s with dueAt := now + cfg.stepAgain,
                 stability := s.stability * cfg.forgetFactor,
                 difficulty := nextDifficulty cfg s.difficulty .Again,
                 reviewCount := s.reviewCount + 1,
                 lapseCount := s.lapseCount + 1,
                 lastReviewedAt := some now,
                 phase := .Relearning },
      intervalDays := cfg.stepAgain }
  | .Hard => reviewSuccess cfg s .Hard now
  | .Good => reviewSuccess cfg s .Good now
  | .Easy => reviewSuccess cfg s .Easy now

/-- Modelled from the spec: a card still in its learning steps (New,
Learning or Relearning phase) uses the fixed step intervals; Good and
Easy graduate it to Review (spec §4.1 step 5). -/
def learningOutcome (cfg : SchedulerConfig) (s : MemoryState) (r : Rating)
    (now : ℚ) : Outcome :=
  let step := learningStep cfg r
  let phase' : Phase :=
    match r with
    | .Again => .Learning
    | .Hard => .Learning
    | .Good => .Review
    | .Easy => .Review
  { nextState :=
      { s with dueAt := now + step,
               difficulty := nextDifficulty cfg s.difficulty r,
               reviewCount := s.reviewCount + 1,
               lapseCount := if r = .Again then s.lapseCount + 1 else s.lapseCount,
               lastReviewedAt := some now,
               phase := phase' },
    intervalDays := step }

/-- Modelled from the spec: the single-rating schedule transition
(`fsrs.repeat(state, now)` followed by selecting the entry whose log
rating matches).  Pure function of `(state, rating, now)` and the
configuration; no I/O. -/
def scheduleRating (cfg : SchedulerConfig) (s : MemoryState) (r : Rating)
    (now : ℚ) : Outcome :=
  if s.phase = .Review then reviewOutcome cfg s r now
  else learningOutcome cfg s r now

/-- The full four-outcome schedule of spec §4.1. -/
def schedule (cfg : SchedulerConfig) (s : MemoryState) (now : ℚ) :
    Rating → Outcome :=
  fun r => scheduleRating cfg s r now

/-! ### Concrete data used by the witnesses -/

/-- A stored record for witnesses. -/
def demoCardRecord : StoredCardState :=
  { cardId := "a", fsrsCard := createEmptyCard 0 }

/-- A one-entry store for witnesses. -/
def demoMap : StoreMap := [("a", demoCardRecord)]

/-- A parsed card whose id is `"a"`. -/
def demoMdCard : MdCard := { id := some "a" }

/-- An FSRS card whose persisted date string failed to parse. -/
def invalidDueCard : FSRSCard :=
  { due := .invalid, stability := 0, difficulty := 0, elapsed_days := 0,
    scheduled_days := 0, reps := 0, lapses := 0, state := 0,
    last_review := none }

/-- A persisted entry with a well-formed shape but an unparseable date. -/
def badDateEntry : RawEntry :=
  { cardId := some "bad", fsrsCard := some invalidDueCard }

/-- A fully well-formed persisted entry. -/
def goodEntry : RawEntry :=
  { cardId := some "ok", fsrsCard := some (createEmptyCard 0) }

/-- A corrupt persisted entry: no card id. -/
def noIdEntry : RawEntry := { fsrsCard := some (createEmptyCard 0) }

/-- A corrupt persisted entry: no fsrsCard. -/
def noCardEntry : RawEntry := { cardId := some "nocard" }

/-- A plausible configuration (target retention 0.9, max interval 100
years, Hard gains half the growth, Easy twice, relearning step 5 minutes). -/
def demoConfig : SchedulerConfig :=
  { requestRetention := 9/10, maximumInterval := 36500, growthWeight := 1,
    hardPenalty := 1/2, easyBonus := 2, difficultyStep := 1/2,
    stepAgain := 1/288, stepHard := 1/240, stepGood := 1, stepEasy := 4,
    forgetFactor := 1/2 }

/-- A Review-phase memory state (stability 10, difficulty 5, last reviewed
10 days before the witness's `now`). -/
def demoReviewState : MemoryState :=
  { dueAt := 10, stability := 10, difficulty := 5, reviewCount := 3,
    lapseCount := 0, lastReviewedAt := some 0, phase := .Review }

/-! ### Association-list lemmas for the JS `Map` embedding -/

theorem mapGet_mapSet_self (m : StoreMap) (k : String) (v : StoredCardState) :
    mapGet (mapSet m k v) k = some v := by
  induction m with
  | nil => simp [mapSet, mapGet]
  | cons p rest ih =>
    by_cases h : p.1 = k
    · simp [mapSet, h, mapGet]
    · simp [mapSet, h, mapGet, ih]

theorem mapGet_mapSet_ne (m : StoreMap) (k k' : String) (v : StoredCardState)
    (h : k' ≠ k) : mapGet (mapSet m k v) k' = mapGet m k' := by
  have hkk' : ¬(k = k') := fun hh => h hh.symm
  induction m with
  | nil => simp [mapSet, mapGet, hkk']
  | cons p rest ih =>
    by_cases hp : p.1 = k
    · have hpk' : ¬(p.1 = k') := by rw [hp]; exact hkk'
      simp [mapSet, hp, mapGet, hkk', hpk']
    · simp [mapSet, hp, mapGet, ih]

theorem mapSet_mapSet (m : StoreMap) (k : String) (v w : StoredCardState) :
    mapSet (mapSet m k v) k w = mapSet m k w := by
  induction m with
  | nil => simp [mapSet]
  | cons p rest ih =>
    by_cases h : p.1 = k
    · simp [mapSet, h]
    · simp [mapSet, h, ih]

theorem mem_of_mapGet_eq_some {m : StoreMap} {k : String}
    {v : StoredCardState} (h : mapGet m k = some v) : (k, v) ∈ m := by
  induction m with
  | nil => simp [mapGet] at h
  | cons p rest ih =>
    by_cases hp : p.1 = k
    · simp [mapGet, hp] at h
      have hpv : p = (k, v) := Prod.ext hp h
      rw [← hpv]
      exact List.mem_cons_self _ _
    · simp [mapGet, hp] at h
      exact List.mem_cons_of_mem _ (ih h)

theorem mapGet_isSome_of_mem {m : StoreMap} {k : String}
    {v : StoredCardState} (h : (k, v) ∈ m) :
    ∃ v', mapGet m k = some v' := by
  induction m with
  | nil => simp at h
  | cons p rest ih =>
    by_cases hp : p.1 = k
    · exact ⟨p.2, by simp [mapGet, hp]⟩
    · rcases List.mem_cons.mp h with heq | hmem
      · exact absurd (congrArg Prod.fst heq.symm) hp
      · rcases ih hmem with ⟨v', hv'⟩
        exact ⟨v', by simp [mapGet, hp, hv']⟩

theorem mapGet_eq_some_of_mem {m : StoreMap} (hm : keysNodup m) {k : String}
    {v : StoredCardState} (h : (k, v) ∈ m) : mapGet m k = some v := by
  induction m with
  | nil => simp at h
  | cons p rest ih =>
    have h2 : (List.map Prod.fst
        ((p :: rest) : List (String × StoredCardState))).Nodup := hm
    rw [List.map_cons, List.nodup_cons] at h2
    rcases List.mem_cons.mp h with heq | hmem
    · rw [← heq]
      simp [mapGet]
    · by_cases hp : p.1 = k
      · exfalso
        apply h2.1
        rw [hp]
        exact List.mem_map.mpr ⟨(k, v), hmem, rfl⟩
      · simp [mapGet, hp]
        exact ih h2.2 hmem

theorem mem_getDueCards_iff {m : StoreMap} (hm : keysNodup m) (now : Int)
    (cid : String) :
    cid ∈ getDueCards m now ↔
      ∃ st, mapGet m cid = some st ∧ st.deleted = false ∧
        st.fsrsCard.due.le now = true := by
  constructor
  · intro h
    rcases List.mem_map.mp h with ⟨p, hp, hfst⟩
    rcases List.mem_filter.mp hp with ⟨hmem, hcond⟩
    simp [Bool.and_eq_true, Bool.not_eq_true'] at hcond
    refine ⟨p.2, ?_, hcond.1, hcond.2⟩
    have : (cid, p.2) ∈ (m : List (String × StoredCardState)) := by
      rw [← hfst]
      exact hmem
    exact mapGet_eq_some_of_mem hm this
  · rintro ⟨st, hget, hdel, hdue⟩
    apply List.mem_map.mpr
    refine ⟨(cid, st), ?_, rfl⟩
    apply List.mem_filter.mpr
    exact ⟨mem_of_mapGet_eq_some hget,
      by simp [Bool.and_eq_true, Bool.not_eq_true', hdel, hdue]⟩

theorem not_mem_getDueCards_of_get_none {m : StoreMap} {cid : String}
    (h : mapGet m cid = none) (now : Int) : cid ∉ getDueCards m now := by
  intro hmem
  rcases List.mem_map.mp hmem with ⟨p, hp, hfst⟩
  rcases List.mem_filter.mp hp with ⟨hmemm, _⟩
  have : (cid, p.2) ∈ (m : List (String × StoredCardState)) := by
    rw [← hfst]; exact hmemm
  rcases mapGet_isSome_of_mem this with ⟨v', hv'⟩
  rw [h] at hv'
  exact Option.noConfusion hv'

/-! ### Load lemmas -/

theorem loadEntry_not_wellFormed {e : RawEntry} (h : e.wellFormed = false)
    (m : StoreMap) : loadEntry m e = m := by
  unfold RawEntry.wellFormed at h
  unfold loadEntry
  cases hc : e.cardId with
  | none => rfl
  | some cid =>
    rw [hc] at h
    by_cases hcid : cid = ""
    · simp [hcid]
    · simp [hcid] at h
      cases hf : e.fsrsCard with
      | none => simp [hcid]
      | some c => rw [hf] at h; simp at h

theorem containsKey_mapSet_self (m : StoreMap) (k : String)
    (v : StoredCardState) : containsKey (mapSet m k v) k = true := by
  induction m with
  | nil => simp [mapSet, containsKey]
  | cons p rest ih =>
    by_cases h : p.1 = k
    · simp [mapSet, h, containsKey]
    · simp [mapSet, h, containsKey, ih]

theorem containsKey_mapSet_mono {m : StoreMap} {k' : String}
    (h : containsKey m k' = true) (k : String) (v : StoredCardState) :
    containsKey (mapSet m k v) k' = true := by
  induction m with
  | nil => simp [containsKey] at h
  | cons p rest ih =>
    by_cases hp : p.1 = k
    · simp [containsKey, hp] at h
      simp [mapSet, hp, containsKey]
      exact h
    · simp [containsKey, hp] at h
      simp [mapSet, hp, containsKey]
      rcases h with h | h
      · left; exact h
      · right; exact ih h

theorem containsKey_loadEntry_mono {m : StoreMap} {k : String}
    (h : containsKey m k = true) (e : RawEntry) :
    containsKey (loadEntry m e) k = true := by
  unfold loadEntry
  cases e.cardId with
  | none => exact h
  | some cid =>
    by_cases hcid : cid = ""
    · simp [hcid]; exact h
    · simp [hcid]
      cases e.fsrsCard with
      | none => exact h
      | some c => exact containsKey_mapSet_mono h _ _

theorem containsKey_foldl_mono {k : String} :
    ∀ (entries : List RawEntry) (acc : StoreMap),
      containsKey acc k = true →
      containsKey (entries.foldl loadEntry acc) k = true := by
  intro entries
  induction entries with
  | nil => intro acc h; exact h
  | cons e rest ih =>
    intro acc h
    exact ih _ (containsKey_loadEntry_mono h e)

theorem loadEntry_wellFormed_contains {e : RawEntry} {cid : String}
    (hwf : e.wellFormed = true) (hcid : e.cardId = some cid)
    (acc : StoreMap) : containsKey (loadEntry acc e) cid = true := by
  unfold RawEntry.wellFormed at hwf
  rw [hcid] at hwf
  by_cases hne : cid = ""
  · simp [hne] at hwf
  · simp [hne] at hwf
    rcases Option.isSome_iff_exists.mp hwf with ⟨c, hc⟩
    unfold loadEntry
    rw [hcid]
    simp [hne, hc]
    exact containsKey_mapSet_self _ _ _

theorem foldl_loadEntry_filter :
    ∀ (entries : List RawEntry) (acc : StoreMap),
      entries.foldl loadEntry acc =
        (entries.filter RawEntry.wellFormed).foldl loadEntry acc := by
  intro entries
  induction entries with
  | nil => intro acc; rfl
  | cons e rest ih =>
    intro acc
    by_cases h : e.wellFormed
    · simp [List.filter_cons, h, List.foldl_cons, ih]
    · have h' : e.wellFormed = false := by simpa using h
      simp [List.filter_cons, h', List.foldl_cons, ih,
        loadEntry_not_wellFormed h']

theorem loaded_of_wellFormed :
    ∀ (entries : List RawEntry) (acc : StoreMap) (e : RawEntry),
      e ∈ entries → e.wellFormed = true →
      ∀ cid, e.cardId = some cid →
        containsKey (entries.foldl loadEntry acc) cid = true := by
  intro entries
  induction entries with
  | nil => intro acc e hmem; simp at hmem
  | cons f rest ih =>
    intro acc e hmem hwf cid hcid
    rcases List.mem_cons.mp hmem with heq | hmem'
    · subst heq
      exact containsKey_foldl_mono rest _
        (loadEntry_wellFormed_contains hwf hcid acc)
    · exact ih _ e hmem' hwf cid hcid

/-! ### Scheduler lemmas -/

theorem elapsedDays_nonneg (s : MemoryState) (now : ℚ) :
    0 ≤ elapsedDays s now := by
  unfold elapsedDays
  cases s.lastReviewedAt with
  | none => exact le_refl 0
  | some t => exact le_max_left 0 _

theorem retrievability_le_one {stab e : ℚ} (hs : 0 < stab) (he : 0 ≤ e) :
    retrievability stab e ≤ 1 := by
  unfold retrievability
  have hpos : (0 : ℚ) < 9 * stab + e := by linarith
  rw [div_le_one hpos]
  linarith

theorem growthFactor_nonneg (cfg : SchedulerConfig) (s : MemoryState)
    (e : ℚ) (hw : 0 ≤ cfg.growthWeight) (hd : s.difficulty ≤ 11)
    (hs : 0 < s.stability) (he : 0 ≤ e) :
    0 ≤ growthFactor cfg s e := by
  unfold growthFactor
  have h1 : retrievability s.stability e ≤ 1 := retrievability_le_one hs he
  have h2 : 0 ≤ 11 - s.difficulty := by linarith
  have h3 : 0 ≤ 1 - retrievability s.stability e := by linarith
  exact mul_nonneg (mul_nonneg hw h2) h3

theorem nextIntervalDays_mono (cfg : SchedulerConfig)
    (hrr0 : 0 < cfg.requestRetention) (hrr1 : cfg.requestRetention ≤ 1)
    {a b : ℚ} (hab : a ≤ b) :
    nextIntervalDays cfg a ≤ nextIntervalDays cfg b := by
  unfold nextIntervalDays
  have hc : 0 ≤ 1 / cfg.requestRetention - 1 := by
    have h1 : 1 ≤ 1 / cfg.requestRetention := by
      rw [le_div_iff₀ hrr0]; linarith
    linarith
  have hm : 9 * a * (1 / cfg.requestRetention - 1) ≤
      9 * b * (1 / cfg.requestRetention - 1) := by
    apply mul_le_mul_of_nonneg_right _ hc
    linarith
  exact min_le_min (le_refl _) (max_le_max (le_refl _) hm)

theorem one_le_nextIntervalDays (cfg : SchedulerConfig)
    (hmax : 1 ≤ cfg.maximumInterval) (stab : ℚ) :
    1 ≤ nextIntervalDays cfg stab :=
  le_min hmax (le_max_left 1 _)

theorem markCardAsDeleted_eq_of_get {m : StoreMap} {cid : String}
    {st : StoredCardState} (h : mapGet m cid = some st) :
    markCardAsDeleted m cid = mapSet m cid { st with deleted := true } := by
  simp [markCardAsDeleted, h]

/-! ### Claim theorems -/

/-- C1: for every store state and timestamp `now`, `getDueCards now`
contains exactly the ids of records whose deleted flag is not set and
whose due date is at most `now`; deleted records and records due strictly
after `now` are never included. -/
theorem getDueCards_exact (m : StoreMap) (hm : keysNodup m) (now : Int)
    (cid : String) :
    cid ∈ getDueCards m now ↔
      ∃ st, mapGet m cid = some st ∧ st.deleted = false ∧
        st.fsrsCard.due.le now = true :=
  mem_getDueCards_iff hm now cid

theorem getDueCards_exact_witness : "a" ∈ getDueCards demoMap 5 :=
  (getDueCards_exact demoMap (by decide) 5 "a").mpr
    ⟨demoCardRecord, by decide, by decide, by decide⟩

/-- C2: for a store containing a record for `id`, `markCardAsDeleted id`
followed by `getOrCreateState` on a card with that id returns the memory
state the record held immediately before the deletion, and leaves the
record with its deleted flag cleared — restore preserves review history. -/
theorem restore_preserves_history (m : StoreMap) (card : MdCard)
    (id : String) (rec : StoredCardState) (now : Int)
    (hid : card.id = some id) (hne : id ≠ "")
    (hget : mapGet m id = some rec) :
    ∃ m2, getOrCreateState (markCardAsDeleted m id) card now =
        .ok (rec.fsrsCard, m2) ∧
      mapGet m2 id = some { rec with deleted := false } := by
  have h1 : markCardAsDeleted m id = mapSet m id { rec with deleted := true } := by
    simp [markCardAsDeleted, hget]
  have h2 : mapGet (markCardAsDeleted m id) id =
      some { rec with deleted := true } := by
    rw [h1]; exact mapGet_mapSet_self m id _
  refine ⟨mapSet (markCardAsDeleted m id) id { rec with deleted := false },
    ?_, mapGet_mapSet_self _ _ _⟩
  simp [getOrCreateState, hid, hne, h2]

theorem restore_preserves_history_witness :
    ∃ m2, getOrCreateState (markCardAsDeleted demoMap "a") demoMdCard 7 =
        .ok (demoCardRecord.fsrsCard, m2) ∧
      mapGet m2 "a" = some { demoCardRecord with deleted := false } :=
  restore_preserves_history demoMap demoMdCard "a" demoCardRecord 7
    rfl (by decide) (by decide)

/-- C3: for a cardId absent from the store, `updateState` and
`markCardAsDeleted` are no-ops that leave the map unchanged, and after
such a call `getDueCards` never includes that id. -/
theorem unknown_id_noop (m : StoreMap) (cid : String) (v : FSRSCard)
    (now t : Int) (h : mapGet m cid = none) :
    updateState m cid v now = m ∧ markCardAsDeleted m cid = m ∧
      cid ∉ getDueCards (updateState m cid v now) t ∧
      cid ∉ getDueCards (markCardAsDeleted m cid) t := by
  have h1 : updateState m cid v now = m := by simp [updateState, h]
  have h2 : markCardAsDeleted m cid = m := by simp [markCardAsDeleted, h]
  refine ⟨h1, h2, ?_, ?_⟩
  · rw [h1]; exact not_mem_getDueCards_of_get_none h t
  · rw [h2]; exact not_mem_getDueCards_of_get_none h t

theorem unknown_id_noop_witness :
    updateState demoMap "x" (createEmptyCard 0) 1 = demoMap ∧
      markCardAsDeleted demoMap "x" = demoMap ∧
      "x" ∉ getDueCards (updateState demoMap "x" (createEmptyCard 0) 1) 2 ∧
      "x" ∉ getDueCards (markCardAsDeleted demoMap "x") 2 :=
  unknown_id_noop demoMap "x" (createEmptyCard 0) 1 2 (by decide)

/-- C4: for a store containing a record for `cid`, `updateState` replaces
the record's stored memory state with the new state and stamps its
`lastReviewDate` with the time of the update. -/
theorem updateState_overwrites (m : StoreMap) (cid : String)
    (rec : StoredCardState) (v : FSRSCard) (now : Int)
    (h : mapGet m cid = some rec) :
    mapGet (updateState m cid v now) cid =
      some { rec with fsrsCard := v, lastReviewDate := some now } := by
  have h1 : updateState m cid v now =
      mapSet m cid { rec with fsrsCard := v, lastReviewDate := some now } := by
    simp [updateState, h]
  rw [h1]
  exact mapGet_mapSet_self _ _ _

theorem updateState_overwrites_witness :
    mapGet (updateState demoMap "a" invalidDueCard 9) "a" =
      some { demoCardRecord with
              fsrsCard := invalidDueCard,
              lastReviewDate := some 9 } :=
  updateState_overwrites demoMap "a" demoCardRecord invalidDueCard 9
    (by decide)

/-- C6: for a card whose id is absent from the store, `getOrCreateState`
creates, stores and returns a default new-card record that is not deleted
and is immediately due (`dueAt <= now`); when a non-deleted record already
exists, its memory state is returned and the map is unchanged. -/
theorem getOrCreateState_creates_or_returns (m : StoreMap) (card : MdCard)
    (id : String) (now : Int) (hid : card.id = some id) (hne : id ≠ "") :
    (mapGet m id = none →
       getOrCreateState m card now =
         .ok (createEmptyCard now, mapSet m id (newCardRecord id now)) ∧
       mapGet (mapSet m id (newCardRecord id now)) id =
         some { cardId := id, fsrsCard := createEmptyCard now,
                lastReviewDate := none, deleted := false } ∧
       (createEmptyCard now).due.le now = true) ∧
    (∀ rec, mapGet m id = some rec → rec.deleted = false →
       getOrCreateState m card now = .ok (rec.fsrsCard, m)) := by
  constructor
  · intro hnone
    refine ⟨?_, mapGet_mapSet_self _ _ _, ?_⟩
    · simp [getOrCreateState, hid, hne, hnone, newCardRecord]
    · simp [createEmptyCard, JSDate.le]
  · intro rec hsome hdel
    simp [getOrCreateState, hid, hne, hsome, hdel]

theorem getOrCreateState_creates_witness :
    getOrCreateState ([] : StoreMap) demoMdCard 3 =
      .ok (createEmptyCard 3, mapSet [] "a" (newCardRecord "a" 3)) ∧
      (createEmptyCard 3).due.le 3 = true := by
  have h := (getOrCreateState_creates_or_returns [] demoMdCard "a" 3
    rfl (by decide)).1 (by decide)
  exact ⟨h.1, h.2.2⟩

/-- C7: `markCardAsDeleted` is idempotent on a store containing the id:
marking twice equals marking once, and the record ends with its deleted
flag set. -/
theorem markCardAsDeleted_idempotent (m : StoreMap) (cid : String)
    (rec : StoredCardState) (h : mapGet m cid = some rec) :
    markCardAsDeleted (markCardAsDeleted m cid) cid =
        markCardAsDeleted m cid ∧
      mapGet (markCardAsDeleted m cid) cid = some { rec with deleted := true } := by
  have h1 : markCardAsDeleted m cid =
      mapSet m cid { rec with deleted := true } :=
    markCardAsDeleted_eq_of_get h
  have h2 : mapGet (markCardAsDeleted m cid) cid =
      some { rec with deleted := true } := by
    rw [h1]; exact mapGet_mapSet_self m cid _
  refine ⟨?_, h2⟩
  rw [markCardAsDeleted_eq_of_get h2, h1, mapSet_mapSet]

theorem markCardAsDeleted_idempotent_witness :
    markCardAsDeleted (markCardAsDeleted demoMap "a") "a" =
        markCardAsDeleted demoMap "a" ∧
      mapGet (markCardAsDeleted demoMap "a") "a" =
        some { demoCardRecord with deleted := true } :=
  markCardAsDeleted_idempotent demoMap "a" demoCardRecord (by decide)

/-- C10: `getOrCreateState` fails with "Card must have an ID" exactly when
the card's id is missing or empty (the store is untouched, since no
updated map is produced); with any non-empty id it never throws. -/
theorem getOrCreateState_requires_id (m : StoreMap) (card : MdCard)
    (now : Int) :
    ((card.id = none ∨ card.id = some "") →
       getOrCreateState m card now = .error "Card must have an ID") ∧
    (∀ id, card.id = some id → id ≠ "" →
       ∃ r, getOrCreateState m card now = .ok r) := by
  constructor
  · rintro (h | h) <;> simp [getOrCreateState, h]
  · intro id hid hne
    rcases hg : mapGet m id with _ | existing
    · exact ⟨(createEmptyCard now, mapSet m id (newCardRecord id now)),
        by simp [getOrCreateState, hid, hne, hg, newCardRecord]⟩
    · by_cases hd : existing.deleted
      · exact ⟨(existing.fsrsCard, mapSet m id { existing with deleted := false }),
          by simp [getOrCreateState, hid, hne, hg, hd]⟩
      · exact ⟨(existing.fsrsCard, m),
          by simp [getOrCreateState, hid, hne, hg, hd]⟩

theorem getOrCreateState_requires_id_witness :
    getOrCreateState demoMap { id := none } 0 =
      .error "Card must have an ID" :=
  (getOrCreateState_requires_id demoMap { id := none } 0).1 (Or.inl rfl)

/-- C5 counterexample: an entry whose persisted date string failed to
parse is loaded into the map (with an invalid due date) rather than being
skipped, so "skip each corrupt entry", where corrupt includes an
unparseable date, fails on the code. -/
theorem loadState_bad_date_loaded :
    mapGet (loadEntries [badDateEntry]) "bad" =
      some { cardId := "bad", fsrsCard := invalidDueCard,
             lastReviewDate := none, deleted := false } := by
  decide

/-- C5 (amended): loading processes entries independently and never
aborts: the load keeps exactly the contribution of the entries with a
truthy `cardId` and a present `fsrsCard`, and the id of every such entry
ends up in the map — a corrupt entry (missing cardId or fsrsCard) is
skipped without affecting the rest, while an unparseable date does not
cause a skip. -/
theorem loadState_skips_invalid (entries : List RawEntry) :
    loadEntries entries = loadEntries (entries.filter RawEntry.wellFormed) ∧
    ∀ e ∈ entries, e.wellFormed = true →
      ∀ cid, e.cardId = some cid →
        containsKey (loadEntries entries) cid = true := by
  constructor
  · exact foldl_loadEntry_filter entries ∅
  · intro e hmem hwf cid hcid
    exact loaded_of_wellFormed entries ∅ e hmem hwf cid hcid

theorem loadState_skips_invalid_witness :
    containsKey (loadEntries [noIdEntry, goodEntry, noCardEntry]) "ok" = true :=
  (loadState_skips_invalid [noIdEntry, goodEntry, noCardEntry]).2
    goodEntry (by simp) (by decide) "ok" rfl

/-- C8: the schedule transition is a pure function of state, rating, now
and the configuration, with no I/O: two invocations on identical inputs
yield identical nextState and intervalDays. -/
theorem schedule_deterministic (cfg : SchedulerConfig) (s : MemoryState)
    (r : Rating) (now : ℚ) :
    (schedule cfg s now r).nextState = (scheduleRating cfg s r now).nextState ∧
      (schedule cfg s now r).intervalDays =
        (scheduleRating cfg s r now).intervalDays :=
  ⟨rfl, rfl⟩

/-- C9: for a Review-phase state, the four scheduled intervals are
monotone in the rating: Again ≤ Hard ≤ Good ≤ Easy, for every
configuration within the spec's parameter ranges (Hard's growth weight at
most Good's, Easy's at least Good's, relearning step at most one day,
target retention in (0, 1], bounded difficulty and positive stability). -/
theorem rating_interval_ordering (cfg : SchedulerConfig) (s : MemoryState)
    (now : ℚ)
    (hphase : s.phase = .Review)
    (hstab : 0 < s.stability)
    (hdiff : s.difficulty ≤ 11)
    (hgw : 0 ≤ cfg.growthWeight)
    (_hhp0 : 0 ≤ cfg.hardPenalty) (hhp1 : cfg.hardPenalty ≤ 1)
    (heb : 1 ≤ cfg.easyBonus)
    (hrr0 : 0 < cfg.requestRetention) (hrr1 : cfg.requestRetention ≤ 1)
    (hmax : 1 ≤ cfg.maximumInterval)
    (hstep : cfg.stepAgain ≤ 1) :
    (scheduleRating cfg s .Again now).intervalDays ≤
        (scheduleRating cfg s .Hard now).intervalDays ∧
      (scheduleRating cfg s .Hard now).intervalDays ≤
        (scheduleRating cfg s .Good now).intervalDays ∧
      (scheduleRating cfg s .Good now).intervalDays ≤
        (scheduleRating cfg s .Easy now).intervalDays := by
  have he : 0 ≤ elapsedDays s now := elapsedDays_nonneg s now
  have hg : 0 ≤ growthFactor cfg s (elapsedDays s now) :=
    growthFactor_nonneg cfg s _ hgw hdiff hstab he
  have hA : (scheduleRating cfg s .Again now).intervalDays = cfg.stepAgain := by
    unfold scheduleRating
    rw [if_pos hphase]
    rfl
  have hH : (scheduleRating cfg s .Hard now).intervalDays =
      nextIntervalDays cfg (reviewStability cfg s (elapsedDays s now) .Hard) := by
    unfold scheduleRating
    rw [if_pos hphase]
    rfl
  have hG : (scheduleRating cfg s .Good now).intervalDays =
      nextIntervalDays cfg (reviewStability cfg s (elapsedDays s now) .Good) := by
    unfold scheduleRating
    rw [if_pos hphase]
    rfl
  have hE : (scheduleRating cfg s .Easy now).intervalDays =
      nextIntervalDays cfg (reviewStability cfg s (elapsedDays s now) .Easy) := by
    unfold scheduleRating
    rw [if_pos hphase]
    rfl
  have hHG : reviewStability cfg s (elapsedDays s now) .Hard ≤
      reviewStability cfg s (elapsedDays s now) .Good := by
    unfold reviewStability
    apply mul_le_mul_of_nonneg_left _ (le_of_lt hstab)
    have h1 : growthFactor cfg s (elapsedDays s now) * cfg.hardPenalty ≤
        growthFactor cfg s (elapsedDays s now) :=
      mul_le_of_le_one_right hg hhp1
    linarith
  have hGE : reviewStability cfg s (elapsedDays s now) .Good ≤
      reviewStability cfg s (elapsedDays s now) .Easy := by
    unfold reviewStability
    apply mul_le_mul_of_nonneg_left _ (le_of_lt hstab)
    have h1 : growthFactor cfg s (elapsedDays s now) ≤
        growthFactor cfg s (elapsedDays s now) * cfg.easyBonus :=
      le_mul_of_one_le_right hg heb
    linarith
  refine ⟨?_, ?_, ?_⟩
  · rw [hA, hH]
    exact le_trans hstep (one_le_nextIntervalDays cfg hmax _)
  · rw [hH, hG]
    exact nextIntervalDays_mono cfg hrr0 hrr1 hHG
  · rw [hG, hE]
    exact nextIntervalDays_mono cfg hrr0 hrr1 hGE

theorem rating_interval_ordering_witness :
    (scheduleRating demoConfig demoReviewState .Again 10).intervalDays ≤
        (scheduleRating demoConfig demoReviewState .Hard 10).intervalDays ∧
      (scheduleRating demoConfig demoReviewState .Hard 10).intervalDays ≤
        (scheduleRating demoConfig demoReviewState .Good 10).intervalDays ∧
      (scheduleRating demoConfig demoReviewState .Good 10).intervalDays ≤
        (scheduleRating demoConfig demoReviewState .Easy 10).intervalDays :=
  rating_interval_ordering demoConfig demoReviewState 10 rfl
    (by norm_num [demoReviewState]) (by norm_num [demoReviewState])
    (by norm_num [demoConfig]) (by norm_num [demoConfig])
    (by norm_num [demoConfig]) (by norm_num [demoConfig])
    (by norm_num [demoConfig]) (by norm_num [demoConfig])
    (by norm_num [demoConfig]) (by norm_num [demoConfig])

end SRS
